import Mathlib

/-!
Verification of the profile-assembly core of `src/tools/protoprofile/main.cc`
(class `PprofProfileComputer`).

The embedding models the stateful C++ class by explicit state passing:

* `ComputerState` holds the three member containers `strings_`,
  `string_to_id_` and `locations_`.  The two `base::FlatHashMap`s are
  modelled as insertion-ordered association lists queried with
  `List.lookup`; iteration order of a hash map is unspecified, and no
  property proved below depends on the order in which `locations_` is
  iterated, so the insertion order is a deterministic stand-in.
* `InternString` / `InternLocation` mirror the two interning methods.
* `Compute` mirrors `PprofProfileComputer::Compute` phase by phase:
  the `PERFETTO_CHECK(InternString("") == 0)` precondition, the five
  `sample_type` entries, the per-field-path sample loop (which sorts each
  sizes vector in place), the location/function records, and the final
  string table.  Wire serialization (`SerializeAsString`) is out of scope;
  the structured `Profile` message content is what is verified.
* Fallible vector indexing (`samples[count - 1]` on an empty vector is
  out of bounds and fatal) is modelled with `Option`: any failure makes
  the whole `Compute` return `none`, matching "any failure in the
  sequence aborts the whole Compute call".
* `Compute` also returns the final `field_path_to_samples` mapping so that
  the frame condition on its keys is statable (the C++ loop mutates the
  map's values in place via `std::sort`).
-/

namespace Protoprofile

abbrev FieldPath := List String

/-- The mapping produced by the external walker
(`SizeProfileComputer::Compute`), modelled as an insertion-ordered
association list from field path to the list of byte sizes. -/
abbrev SampleSet := List (FieldPath × List Nat)

/-- The member state of `PprofProfileComputer`. -/
structure ComputerState where
  strings_ : List String
  string_to_id_ : List (String × Nat)
  locations_ : List (String × Nat)
deriving Repr, DecidableEq

/-- A freshly constructed `PprofProfileComputer`. -/
def initComputer : ComputerState := ⟨[], [], []⟩

/-- Model of `PprofProfileComputer::InternString` (main.cc:100-109): return the
existing ID if present, else push the string and record
`id = strings_.size() - 1` after the push. -/
def InternString (st : ComputerState) (s : String) : ComputerState × Nat :=
  match st.string_to_id_.lookup s with
  | some id => (st, id)
  | none =>
      let id := st.strings_.length
      ({ st with
          strings_ := st.strings_ ++ [s],
          string_to_id_ := st.string_to_id_ ++ [(s, id)] }, id)

/-- Model of `PprofProfileComputer::InternLocation` (main.cc:111-119): return the
existing ID if present, else assign `locations_.size() + 1`. -/
def InternLocation (st : ComputerState) (s : String) : ComputerState × Nat :=
  match st.locations_.lookup s with
  | some id => (st, id)
  | none =>
      let id := st.locations_.length + 1
      ({ st with locations_ := st.locations_ ++ [(s, id)] }, id)

/-- One `sample_type` entry of the output profile: interned string IDs for
`type` and `unit`. -/
structure SampleTypeEntry where
  type : Nat
  unit : Nat
deriving Repr, DecidableEq

/-- One `sample` entry: packed location IDs and packed values. -/
structure ProfSample where
  location_id : List Nat
  value : List Int
deriving Repr, DecidableEq

/-- One `location` entry: its ID and the `function_id` of its single
`line` sub-message (main.cc:188-192). -/
structure ProfLocation where
  id : Nat
  function_id : Nat
deriving Repr, DecidableEq

/-- One `function` entry: its ID and the interned string ID of its name. -/
structure ProfFunction where
  id : Nat
  name : Nat
deriving Repr, DecidableEq

/-- The assembled pprof profile message (the fields of
`third_party::perftools::profiles::Profile` that `Compute` fills in). -/
structure Profile where
  sample_type : List SampleTypeEntry
  sample : List ProfSample
  location : List ProfLocation
  function : List ProfFunction
  string_table : List String
deriving Repr, DecidableEq

/-- The five `add_sample_type` blocks of main.cc:132-150, in order. -/
def addSampleTypes (st : ComputerState) : ComputerState × List SampleTypeEntry :=
  let p1 := InternString st "protos"
  let p2 := InternString p1.1 "count"
  let p3 := InternString p2.1 "max_size"
  let p4 := InternString p3.1 "bytes"
  let p5 := InternString p4.1 "min_size"
  let p6 := InternString p5.1 "bytes"
  let p7 := InternString p6.1 "median"
  let p8 := InternString p7.1 "bytes"
  let p9 := InternString p8.1 "total_size"
  let p10 := InternString p9.1 "bytes"
  (p10.1, [⟨p1.2, p2.2⟩, ⟨p3.2, p4.2⟩, ⟨p5.2, p6.2⟩, ⟨p7.2, p8.2⟩, ⟨p9.2, p10.2⟩])

/-- The inner loop of main.cc:159-162: intern each element of the already
reversed field path, accumulating the packed location IDs in order. -/
def internLocationList (st : ComputerState) (names : List String) :
    ComputerState × List Nat :=
  match names with
  | [] => (st, [])
  | n :: rest =>
      let p := InternLocation st n
      let q := internLocationList p.1 rest
      (q.1, p.2 :: q.2)

/-- The statistics block of main.cc:166-179, applied to the sorted sizes
vector: `count`, `max = samples[count-1]`, `min = samples[0]`,
`median = samples[count/2]`, `total = Σ samples[i]`.  Out-of-bounds vector
access (which happens exactly when the vector is empty) is fatal,
modelled as `none`. -/
def sampleStats (samples : List Nat) : Option (List Int) :=
  let count := samples.length
  match (samples[count - 1]? : Option Nat), (samples[0]? : Option Nat),
      (samples[count / 2]? : Option Nat) with
  | some max_size, some min_size, some median_size =>
      let total_size : Nat := samples.foldl (· + ·) 0
      some [(count : Int), (max_size : Int), (min_size : Int),
            (median_size : Int), (total_size : Int)]
  | _, _, _ => none

/-- The per-field-path loop of main.cc:153-181.  For each entry: build the
leaf-first location stack from the reversed path, sort the sizes in place
(`std::sort` ascending — modelled by `List.insertionSort`, which computes
the same ascending rearrangement), and emit the sample.  Returns the final
state, the samples in iteration order, and the mutated mapping. -/
def buildSamples (st : ComputerState) (entries : SampleSet) :
    Option (ComputerState × List ProfSample × SampleSet) :=
  match entries with
  | [] => some (st, [], [])
  | (field_path, samples) :: rest =>
      let p := internLocationList st field_path.reverse
      let sorted := List.insertionSort (· ≤ ·) samples
      match sampleStats sorted with
      | none => none
      | some values =>
          match buildSamples p.1 rest with
          | none => none
          | some (st2, smps, rest2) =>
              some (st2, ⟨p.2, values⟩ :: smps, (field_path, sorted) :: rest2)

/-- The location/function loop of main.cc:187-197: for each interned
location, one `location` record (ID, single line with `function_id` equal
to the same ID) and one `function` record whose name is interned now. -/
def buildLocationRecords (st : ComputerState) (locs : List (String × Nat)) :
    ComputerState × List ProfLocation × List ProfFunction :=
  match locs with
  | [] => (st, [], [])
  | (name, id) :: rest =>
      let p := InternString st name
      let q := buildLocationRecords p.1 rest
      (q.1, ⟨id, id⟩ :: q.2.1, ⟨id, p.2⟩ :: q.2.2)

/-- Model of `PprofProfileComputer::Compute` (main.cc:121-204), starting from member
state `st` and fed the walker's output `field_path_to_samples`.  Phases in
source order: the `PERFETTO_CHECK(InternString("") == 0)` precondition
(failure is fatal: `none`), the five sample types, the sample loop, the
location/function records, and finally the string table snapshot. -/
def Compute (st : ComputerState) (field_path_to_samples : SampleSet) :
    Option (Profile × SampleSet) :=
  let p0 := InternString st ""
  if p0.2 = 0 then
    let p1 := addSampleTypes p0.1
    match buildSamples p1.1 field_path_to_samples with
    | none => none
    | some (st2, smps, entries2) =>
        let p3 := buildLocationRecords st2 st2.locations_
        some (⟨p1.2, smps, p3.2.1, p3.2.2, p3.1.strings_⟩, entries2)
  else
    none

/-- The profile produced by one run of the tool: a fresh
`PprofProfileComputer` (constructed in `Main`, main.cc:251) whose
`Compute` is invoked once. -/
def computeProfile (field_path_to_samples : SampleSet) : Option Profile :=
  (Compute initComputer field_path_to_samples).map Prod.fst

/-! ### Invariant predicates and concrete example runs -/

/-- Well-formedness of the string-interning state: the `string_to_id_` map
resolves into `strings_`, misses mean absence, and `strings_` holds no
duplicates.  Holds for a fresh computer and is preserved by every
operation. -/
structure StrWF (st : ComputerState) : Prop where
  resolve : ∀ s i, st.string_to_id_.lookup s = some i → st.strings_[i]? = some s
  complete : ∀ s, st.string_to_id_.lookup s = none → s ∉ st.strings_
  nodup : st.strings_.Nodup

/-- Well-formedness of the location-interning state: reading the
insertion-ordered map in order, the k-th entry carries ID `k + 1`, i.e.
IDs are exactly `1, 2, …, size` in first-seen order. -/
def LocWF (locs : List (String × Nat)) : Prop :=
  locs.map Prod.snd = List.range' 1 locs.length

/-- The member state right after the `PERFETTO_CHECK` and the five
sample-type blocks, starting from a fresh computer. -/
def stAfterTypes : ComputerState := (addSampleTypes (InternString initComputer "").1).1

/-! ### Concrete example runs used by the witnesses -/

def exEntriesA : SampleSet := [(["a"], [3, 1, 2])]

def exProfileA : Profile :=
  ⟨[⟨1, 2⟩, ⟨3, 4⟩, ⟨5, 4⟩, ⟨6, 4⟩, ⟨7, 4⟩],
   [⟨[1], [3, 3, 1, 2, 6]⟩],
   [⟨1, 1⟩], [⟨1, 8⟩],
   ["", "protos", "count", "max_size", "bytes", "min_size", "median",
    "total_size", "a"]⟩

def exEntriesAB : SampleSet := [(["a", "b"], [5])]

def exProfileAB : Profile :=
  ⟨[⟨1, 2⟩, ⟨3, 4⟩, ⟨5, 4⟩, ⟨6, 4⟩, ⟨7, 4⟩],
   [⟨[1, 2], [1, 5, 5, 5, 5]⟩],
   [⟨1, 1⟩, ⟨2, 2⟩], [⟨1, 8⟩, ⟨2, 9⟩],
   ["", "protos", "count", "max_size", "bytes", "min_size", "median",
    "total_size", "b", "a"]⟩

def exEntriesXY : SampleSet := [(["x"], [1, 2]), (["y", "x"], [7])]

def exProfileXY : Profile :=
  ⟨[⟨1, 2⟩, ⟨3, 4⟩, ⟨5, 4⟩, ⟨6, 4⟩, ⟨7, 4⟩],
   [⟨[1], [2, 2, 1, 2, 3]⟩, ⟨[1, 2], [1, 7, 7, 7, 7]⟩],
   [⟨1, 1⟩, ⟨2, 2⟩], [⟨1, 8⟩, ⟨2, 9⟩],
   ["", "protos", "count", "max_size", "bytes", "min_size", "median",
    "total_size", "x", "y"]⟩

/-! ### Association-list and list helper lemmas -/

theorem lookup_append_of_some {l₁ l₂ : List (String × Nat)} {a : String} {b : Nat}
    (h : l₁.lookup a = some b) : (l₁ ++ l₂).lookup a = some b := by
  induction l₁ with
  | nil => simp at h
  | cons p rest ih =>
      obtain ⟨k, v⟩ := p
      cases hk : (a == k)
      · simp only [List.lookup_cons, hk] at h
        simp only [List.cons_append, List.lookup_cons, hk]
        exact ih h
      · simp only [List.lookup_cons, hk] at h
        simp only [List.cons_append, List.lookup_cons, hk]
        exact h

theorem lookup_append_of_none {l₁ l₂ : List (String × Nat)} {a : String}
    (h : l₁.lookup a = none) : (l₁ ++ l₂).lookup a = l₂.lookup a := by
  induction l₁ with
  | nil => simp
  | cons p rest ih =>
      obtain ⟨k, v⟩ := p
      cases hk : (a == k)
      · simp only [List.lookup_cons, hk] at h
        simp only [List.cons_append, List.lookup_cons, hk]
        exact ih h
      · simp only [List.lookup_cons, hk] at h
        exact absurd h (by simp)

theorem mem_of_lookup_eq_some {l : List (String × Nat)} {a : String} {b : Nat}
    (h : l.lookup a = some b) : (a, b) ∈ l := by
  induction l with
  | nil => simp at h
  | cons p rest ih =>
      obtain ⟨k, v⟩ := p
      rw [List.lookup_cons] at h
      by_cases hk : a == k
      · simp only [hk] at h
        obtain rfl : v = b := by simpa using h
        obtain rfl : a = k := by simpa using hk
        exact List.mem_cons_self _ _
      · simp only [Bool.not_eq_true] at hk
        simp only [hk] at h
        exact List.mem_cons_of_mem _ (ih h)

theorem getElem?_of_extend {α : Type} {l₁ l₂ : List α} {i : Nat} {a : α}
    (hp : l₁ <+: l₂) (h : l₁[i]? = some a) : l₂[i]? = some a := by
  obtain ⟨t, rfl⟩ := hp
  have hi : i < l₁.length := (List.getElem?_eq_some.mp h).1
  rw [List.getElem?_append, if_pos hi]
  exact h

/-! ### `InternString` invariants -/

theorem strWF_init : StrWF initComputer := by
  refine ⟨?_, ?_, ?_⟩ <;> simp [initComputer]

theorem InternString_found {st : ComputerState} {s : String} {i : Nat}
    (h : st.string_to_id_.lookup s = some i) : InternString st s = (st, i) := by
  unfold InternString
  rw [h]

theorem InternString_fresh {st : ComputerState} {s : String}
    (h : st.string_to_id_.lookup s = none) :
    InternString st s =
      ({ st with
          strings_ := st.strings_ ++ [s],
          string_to_id_ := st.string_to_id_ ++ [(s, st.strings_.length)] },
        st.strings_.length) := by
  unfold InternString
  rw [h]

theorem InternString_strings_extend (st : ComputerState) (s : String) :
    st.strings_ <+: (InternString st s).1.strings_ := by
  cases h : st.string_to_id_.lookup s with
  | some i => rw [InternString_found h]
  | none => rw [InternString_fresh h]; exact ⟨[s], rfl⟩

theorem InternString_locations (st : ComputerState) (s : String) :
    (InternString st s).1.locations_ = st.locations_ := by
  cases h : st.string_to_id_.lookup s with
  | some i => rw [InternString_found h]
  | none => rw [InternString_fresh h]

theorem InternString_wf {st : ComputerState} (h : StrWF st) (s : String) :
    StrWF (InternString st s).1 := by
  cases hl : st.string_to_id_.lookup s with
  | some i => rw [InternString_found hl]; exact h
  | none =>
      rw [InternString_fresh hl]
      have hsnot : s ∉ st.strings_ := h.complete s hl
      refine ⟨?_, ?_, ?_⟩
      · intro t i ht
        cases hto : st.string_to_id_.lookup t with
        | some j =>
            rw [lookup_append_of_some hto] at ht
            obtain rfl : j = i := by simpa using ht
            exact getElem?_of_extend ⟨[s], rfl⟩ (h.resolve t j hto)
        | none =>
            rw [lookup_append_of_none hto] at ht
            by_cases hts : t == s
            · obtain rfl : t = s := by simpa using hts
              simp only [List.lookup_cons, hts] at ht
              obtain rfl : st.strings_.length = i := by simpa using ht
              rw [List.getElem?_append, if_neg (by omega)]
              simp
            · simp [List.lookup_cons, hts] at ht
      · intro t ht
        cases hto : st.string_to_id_.lookup t with
        | some j => rw [lookup_append_of_some hto] at ht; simp at ht
        | none =>
            rw [lookup_append_of_none hto] at ht
            by_cases hts : t == s
            · simp [List.lookup_cons, hts] at ht
            · have : t ≠ s := by simpa using hts
              simp only [List.mem_append, List.mem_singleton]
              push_neg
              exact ⟨h.complete t hto, this⟩
      · simp only [List.nodup_append, List.nodup_singleton, true_and]
        exact ⟨h.nodup, by simpa [List.disjoint_singleton] using hsnot⟩

theorem InternString_resolve {st : ComputerState} (h : StrWF st) (s : String) :
    (InternString st s).1.strings_[(InternString st s).2]? = some s := by
  cases hl : st.string_to_id_.lookup s with
  | some i => rw [InternString_found hl]; exact h.resolve s i hl
  | none =>
      rw [InternString_fresh hl]
      rw [List.getElem?_append, if_neg (by omega)]
      simp

theorem InternString_id_lt {st : ComputerState} (h : StrWF st) (s : String) :
    (InternString st s).2 < (InternString st s).1.strings_.length :=
  (List.getElem?_eq_some.mp (InternString_resolve h s)).1

/-! ### `InternLocation` invariants -/

theorem locWF_init : LocWF initComputer.locations_ := by
  simp [LocWF, initComputer]

theorem InternLocation_found {st : ComputerState} {s : String} {i : Nat}
    (h : st.locations_.lookup s = some i) : InternLocation st s = (st, i) := by
  unfold InternLocation
  rw [h]

theorem InternLocation_fresh {st : ComputerState} {s : String}
    (h : st.locations_.lookup s = none) :
    InternLocation st s =
      ({ st with locations_ := st.locations_ ++ [(s, st.locations_.length + 1)] },
        st.locations_.length + 1) := by
  unfold InternLocation
  rw [h]

theorem InternLocation_strings (st : ComputerState) (s : String) :
    (InternLocation st s).1.strings_ = st.strings_ ∧
    (InternLocation st s).1.string_to_id_ = st.string_to_id_ := by
  cases h : st.locations_.lookup s with
  | some i => rw [InternLocation_found h]; exact ⟨rfl, rfl⟩
  | none => rw [InternLocation_fresh h]; exact ⟨rfl, rfl⟩

theorem InternLocation_stable {st : ComputerState} {k : String} {v : Nat} (s : String)
    (h : st.locations_.lookup k = some v) :
    (InternLocation st s).1.locations_.lookup k = some v := by
  cases hl : st.locations_.lookup s with
  | some i => rw [InternLocation_found hl]; exact h
  | none => rw [InternLocation_fresh hl]; exact lookup_append_of_some h

theorem InternLocation_lookup_self (st : ComputerState) (s : String) :
    (InternLocation st s).1.locations_.lookup s = some (InternLocation st s).2 := by
  cases hl : st.locations_.lookup s with
  | some i => rw [InternLocation_found hl]; exact hl
  | none =>
      rw [InternLocation_fresh hl]
      rw [lookup_append_of_none hl]
      simp [List.lookup_cons]

theorem InternLocation_locWF {st : ComputerState} (h : LocWF st.locations_) (s : String) :
    LocWF (InternLocation st s).1.locations_ := by
  cases hl : st.locations_.lookup s with
  | some i => rw [InternLocation_found hl]; exact h
  | none =>
      rw [InternLocation_fresh hl]
      unfold LocWF at h ⊢
      simp only [List.map_append, List.map_cons, List.map_nil, List.length_append,
        List.length_cons, List.length_nil]
      rw [h, List.range'_concat]
      simp [Nat.add_comm]

theorem lookup_mem_range'_of_locWF {locs : List (String × Nat)} {k : String} {id : Nat}
    (h : LocWF locs) (hl : locs.lookup k = some id) :
    1 ≤ id ∧ id ≤ locs.length := by
  have hmem : (k, id) ∈ locs := mem_of_lookup_eq_some hl
  have : id ∈ locs.map Prod.snd := List.mem_map_of_mem Prod.snd hmem
  rw [h] at this
  rw [List.mem_range'] at this
  obtain ⟨i, hi, rfl⟩ := this
  omega

theorem InternLocation_ne_zero {st : ComputerState} (h : LocWF st.locations_) (s : String) :
    (InternLocation st s).2 ≠ 0 := by
  cases hl : st.locations_.lookup s with
  | some i =>
      rw [InternLocation_found hl]
      have := lookup_mem_range'_of_locWF h hl
      omega
  | none => rw [InternLocation_fresh hl]; omega

/-! ### The per-sample location loop -/

theorem internLocationList_strings (names : List String) (st : ComputerState) :
    (internLocationList st names).1.strings_ = st.strings_ ∧
    (internLocationList st names).1.string_to_id_ = st.string_to_id_ := by
  induction names generalizing st with
  | nil => exact ⟨rfl, rfl⟩
  | cons n rest ih =>
      simp only [internLocationList]
      obtain ⟨h1, h2⟩ := ih (InternLocation st n).1
      obtain ⟨h3, h4⟩ := InternLocation_strings st n
      exact ⟨h1.trans h3, h2.trans h4⟩

theorem internLocationList_stable {st : ComputerState} {k : String} {v : Nat}
    (names : List String) (h : st.locations_.lookup k = some v) :
    (internLocationList st names).1.locations_.lookup k = some v := by
  induction names generalizing st with
  | nil => exact h
  | cons n rest ih =>
      simp only [internLocationList]
      exact ih (InternLocation_stable n h)

theorem internLocationList_locWF {st : ComputerState} (names : List String)
    (h : LocWF st.locations_) :
    LocWF (internLocationList st names).1.locations_ := by
  induction names generalizing st with
  | nil => exact h
  | cons n rest ih =>
      simp only [internLocationList]
      exact ih (InternLocation_locWF h n)

theorem internLocationList_length (names : List String) (st : ComputerState) :
    (internLocationList st names).2.length = names.length := by
  induction names generalizing st with
  | nil => rfl
  | cons n rest ih =>
      simp only [internLocationList, List.length_cons]
      rw [ih]

theorem internLocationList_resolve (names : List String) (st : ComputerState)
    {j : Nat} {n : String} (hj : names[j]? = some n) :
    ∃ id, (internLocationList st names).2[j]? = some id ∧
      (internLocationList st names).1.locations_.lookup n = some id := by
  induction names generalizing st j with
  | nil => simp at hj
  | cons m rest ih =>
      cases j with
      | zero =>
          obtain rfl : m = n := by simpa using hj
          refine ⟨(InternLocation st m).2, ?_, ?_⟩
          · simp [internLocationList]
          · simp only [internLocationList]
            exact internLocationList_stable rest (InternLocation_lookup_self st m)
      | succ j' =>
          have hj' : rest[j']? = some n := by simpa using hj
          obtain ⟨id, h1, h2⟩ := ih (InternLocation st m).1 hj'
          refine ⟨id, ?_, ?_⟩
          · simpa [internLocationList] using h1
          · simpa [internLocationList] using h2

/-! ### The sample loop -/

theorem buildSamples_spec {st st' : ComputerState} {entries : SampleSet}
    {smps : List ProfSample} {entries' : SampleSet}
    (h : buildSamples st entries = some (st', smps, entries')) :
    st'.strings_ = st.strings_ ∧ st'.string_to_id_ = st.string_to_id_ ∧
    (∀ k v, st.locations_.lookup k = some v → st'.locations_.lookup k = some v) ∧
    (LocWF st.locations_ → LocWF st'.locations_) ∧
    smps.length = entries.length ∧ entries'.length = entries.length ∧
    ∀ (i : Nat) (path : FieldPath) (sizes : List Nat), entries[i]? = some (path, sizes) →
      ∃ smp : ProfSample, smps[i]? = some smp ∧
        entries'[i]? = some (path, List.insertionSort (· ≤ ·) sizes) ∧
        sampleStats (List.insertionSort (· ≤ ·) sizes) = some smp.value ∧
        smp.location_id.length = path.length ∧
        (∀ (j : Nat) (name : String), path.reverse[j]? = some name →
          ∃ id : Nat, smp.location_id[j]? = some id ∧
            st'.locations_.lookup name = some id) := by
  induction entries generalizing st smps entries' with
  | nil =>
      obtain ⟨rfl, rfl, rfl⟩ : st = st' ∧ [] = smps ∧ [] = entries' := by
        simpa [buildSamples] using h
      refine ⟨rfl, rfl, fun _ _ hv => hv, fun hw => hw, rfl, rfl, ?_⟩
      intro i path sizes hi
      simp at hi
  | cons e rest ih =>
      obtain ⟨path, sizes⟩ := e
      simp only [buildSamples] at h
      cases hstat : sampleStats (List.insertionSort (· ≤ ·) sizes) with
      | none => rw [hstat] at h; exact absurd h (by simp)
      | some values =>
          rw [hstat] at h
          cases hrec : buildSamples (internLocationList st path.reverse).1 rest with
          | none => rw [hrec] at h; exact absurd h (by simp)
          | some r =>
              obtain ⟨st2, smps2, rest2⟩ := r
              rw [hrec] at h
              obtain ⟨rfl, rfl, rfl⟩ :
                  st2 = st' ∧
                  ({ location_id := (internLocationList st path.reverse).2,
                     value := values } : ProfSample) :: smps2 = smps ∧
                  (path, List.insertionSort (· ≤ ·) sizes) :: rest2 = entries' := by
                simpa using h
              obtain ⟨hs1, hs2, hs3, hs4, hs5, hs6, hs7⟩ := ih hrec
              obtain ⟨hl1, hl2⟩ := internLocationList_strings path.reverse st
              refine ⟨hs1.trans hl1, hs2.trans hl2, ?_, ?_, ?_, ?_, ?_⟩
              · intro k v hv
                exact hs3 k v (internLocationList_stable path.reverse hv)
              · intro hw
                exact hs4 (internLocationList_locWF path.reverse hw)
              · simp [hs5]
              · simp [hs6]
              · intro i p s hi
                cases i with
                | zero =>
                    obtain ⟨rfl, rfl⟩ : path = p ∧ sizes = s := by
                      simpa using hi
                    refine ⟨⟨(internLocationList st path.reverse).2, values⟩,
                      by simp, by simp, ?_, ?_, ?_⟩
                    · simpa using hstat
                    · simp [internLocationList_length]
                    · intro j name hj
                      obtain ⟨id, hid1, hid2⟩ :=
                        internLocationList_resolve path.reverse st hj
                      exact ⟨id, hid1, hs3 name id hid2⟩
                | succ i' =>
                    have hi' : rest[i']? = some (p, s) := by simpa using hi
                    obtain ⟨smp, h1, h2, h3, h4, h5⟩ := hs7 i' p s hi'
                    exact ⟨smp, by simpa using h1, by simpa using h2, h3, h4, h5⟩

/-! ### The location/function record loop -/

theorem buildLocationRecords_locations (locs : List (String × Nat)) (st : ComputerState) :
    (buildLocationRecords st locs).1.locations_ = st.locations_ := by
  induction locs generalizing st with
  | nil => rfl
  | cons p rest ih =>
      obtain ⟨name, id⟩ := p
      simp only [buildLocationRecords]
      rw [ih]
      exact InternString_locations st name

theorem buildLocationRecords_strings_extend (locs : List (String × Nat))
    (st : ComputerState) :
    st.strings_ <+: (buildLocationRecords st locs).1.strings_ := by
  induction locs generalizing st with
  | nil => exact ⟨[], List.append_nil _⟩
  | cons p rest ih =>
      obtain ⟨name, id⟩ := p
      simp only [buildLocationRecords]
      exact (InternString_strings_extend st name).trans (ih (InternString st name).1)

theorem buildLocationRecords_wf (locs : List (String × Nat)) {st : ComputerState}
    (h : StrWF st) : StrWF (buildLocationRecords st locs).1 := by
  induction locs generalizing st with
  | nil => exact h
  | cons p rest ih =>
      obtain ⟨name, id⟩ := p
      simp only [buildLocationRecords]
      exact ih (InternString_wf h name)

theorem buildLocationRecords_ids (locs : List (String × Nat)) (st : ComputerState) :
    (buildLocationRecords st locs).2.1.map ProfLocation.id = locs.map Prod.snd ∧
    (buildLocationRecords st locs).2.2.map ProfFunction.id = locs.map Prod.snd ∧
    (buildLocationRecords st locs).2.1.length = locs.length ∧
    (buildLocationRecords st locs).2.2.length = locs.length := by
  induction locs generalizing st with
  | nil => exact ⟨rfl, rfl, rfl, rfl⟩
  | cons p rest ih =>
      obtain ⟨name, id⟩ := p
      obtain ⟨h1, h2, h3, h4⟩ := ih (InternString st name).1
      simp only [buildLocationRecords, List.map_cons, List.length_cons]
      exact ⟨by rw [h1], by rw [h2], by rw [h3], by rw [h4]⟩

theorem buildLocationRecords_resolve (locs : List (String × Nat)) {st : ComputerState}
    (hw : StrWF st) {k : Nat} {name : String} {id : Nat}
    (hk : locs[k]? = some (name, id)) :
    (buildLocationRecords st locs).2.1[k]? = some ⟨id, id⟩ ∧
    ∃ nameId : Nat, (buildLocationRecords st locs).2.2[k]? = some ⟨id, nameId⟩ ∧
      (buildLocationRecords st locs).1.strings_[nameId]? = some name := by
  induction locs generalizing st k with
  | nil => simp at hk
  | cons p rest ih =>
      obtain ⟨nm, i⟩ := p
      cases k with
      | zero =>
          obtain ⟨rfl, rfl⟩ : nm = name ∧ i = id := by simpa using hk
          refine ⟨by simp [buildLocationRecords], (InternString st nm).2,
            by simp [buildLocationRecords], ?_⟩
          simp only [buildLocationRecords]
          exact getElem?_of_extend
            (buildLocationRecords_strings_extend rest (InternString st nm).1)
            (InternString_resolve hw nm)
      | succ k' =>
          have hk' : rest[k']? = some (name, id) := by simpa using hk
          obtain ⟨h1, nameId, h2, h3⟩ := ih (InternString_wf hw nm) hk'
          exact ⟨by simpa [buildLocationRecords] using h1, nameId,
            by simpa [buildLocationRecords] using h2,
            by simpa [buildLocationRecords] using h3⟩

/-! ### Dissecting `Compute` from a fresh computer -/

theorem stAfterTypes_strings :
    stAfterTypes.strings_ =
      ["", "protos", "count", "max_size", "bytes", "min_size", "median",
       "total_size"] := by decide

theorem stAfterTypes_locations : stAfterTypes.locations_ = [] := by decide

theorem strWF_afterTypes : StrWF stAfterTypes :=
  InternString_wf (InternString_wf (InternString_wf (InternString_wf (InternString_wf
    (InternString_wf (InternString_wf (InternString_wf (InternString_wf (InternString_wf
      (InternString_wf strWF_init "") "protos") "count") "max_size") "bytes")
        "min_size") "bytes") "median") "bytes") "total_size") "bytes"

theorem locWF_afterTypes : LocWF stAfterTypes.locations_ := by
  rw [stAfterTypes_locations]
  simp [LocWF]

/-- The fixed sample-type entries as interned from a fresh computer. -/
theorem addSampleTypes_fixed :
    (addSampleTypes (InternString initComputer "").1).2 =
      [⟨1, 2⟩, ⟨3, 4⟩, ⟨5, 4⟩, ⟨6, 4⟩, ⟨7, 4⟩] := by decide

/-- Evaluating `Compute` from a fresh computer, split into its phases: the check
passes, the sample types are the fixed five, and the rest is the sample
loop followed by the location/function loop and the string-table
snapshot. -/
theorem Compute_dissect (entries : SampleSet) :
    Compute initComputer entries =
      match buildSamples stAfterTypes entries with
      | none => none
      | some (st2, smps, entries2) =>
          some (⟨[⟨1, 2⟩, ⟨3, 4⟩, ⟨5, 4⟩, ⟨6, 4⟩, ⟨7, 4⟩], smps,
                 (buildLocationRecords st2 st2.locations_).2.1,
                 (buildLocationRecords st2 st2.locations_).2.2,
                 (buildLocationRecords st2 st2.locations_).1.strings_⟩, entries2) := by
  rfl

/-! ### Pure facts about the per-path statistics -/

theorem sorted_getElem_le {l : List Nat} (h : l.Sorted (· ≤ ·)) {i j : Nat}
    (hi : i < l.length) (hj : j < l.length) (hij : i ≤ j) : l[i] ≤ l[j] := by
  rcases Nat.eq_or_lt_of_le hij with rfl | hlt
  · exact le_refl _
  · exact List.pairwise_iff_get.mp h ⟨i, hi⟩ ⟨j, hj⟩ hlt

/-- Sorting with `std::sort` ascending (modelled by `insertionSort`) agrees with any
other ascending sort of the same list, in particular `mergeSort`. -/
theorem mergeSort_eq_insertionSort (sizes : List Nat) :
    sizes.mergeSort (fun a b => a ≤ b) = List.insertionSort (· ≤ ·) sizes := by
  have htrans : ∀ a b c : Nat, decide (a ≤ b) = true → decide (b ≤ c) = true →
      decide (a ≤ c) = true := by
    intro a b c hab hbc
    simp only [decide_eq_true_eq] at hab hbc ⊢
    omega
  have htotal : ∀ a b : Nat, (decide (a ≤ b) || decide (b ≤ a)) = true := by
    intro a b
    simp only [Bool.or_eq_true, decide_eq_true_eq]
    exact Nat.le_total a b
  have hp := @List.sorted_mergeSort Nat (fun a b => decide (a ≤ b)) htrans htotal sizes
  have hsorted : (sizes.mergeSort (fun a b => a ≤ b)).Sorted (· ≤ ·) :=
    hp.imp fun {a b} hab => by simpa using hab
  exact List.eq_of_perm_of_sorted
    ((List.mergeSort_perm sizes _).trans (List.perm_insertionSort _ sizes).symm)
    hsorted (List.sorted_insertionSort _ sizes)

/-- The statistics block evaluated on the ascending sort of a non-empty
sizes list: count, true maximum, true minimum, upper-median at index
`count / 2` of the sorted list, and the total. -/
theorem sampleStats_insertionSort {sizes : List Nat} (h : sizes ≠ []) :
    ∃ mx mn md : Nat,
      sizes.max? = some mx ∧ sizes.min? = some mn ∧
      (sizes.mergeSort (fun a b => a ≤ b))[sizes.length / 2]? = some md ∧
      sampleStats (List.insertionSort (· ≤ ·) sizes) =
        some [(sizes.length : Int), (mx : Int), (mn : Int), (md : Int),
              (sizes.sum : Int)] := by
  have hperm : (List.insertionSort (· ≤ ·) sizes).Perm sizes :=
    List.perm_insertionSort _ sizes
  have hsorted : (List.insertionSort (· ≤ ·) sizes).Sorted (· ≤ ·) :=
    List.sorted_insertionSort _ sizes
  have hlen : (List.insertionSort (· ≤ ·) sizes).length = sizes.length :=
    hperm.length_eq
  have hpos : 0 < sizes.length := List.length_pos.mpr h
  have hn1 : sizes.length - 1 < (List.insertionSort (· ≤ ·) sizes).length := by omega
  have h0 : 0 < (List.insertionSort (· ≤ ·) sizes).length := by omega
  have hmid : sizes.length / 2 < (List.insertionSort (· ≤ ·) sizes).length := by
    rw [hlen]
    exact Nat.div_lt_self hpos (by norm_num)
  refine ⟨(List.insertionSort (· ≤ ·) sizes)[sizes.length - 1],
    (List.insertionSort (· ≤ ·) sizes)[0],
    (List.insertionSort (· ≤ ·) sizes)[sizes.length / 2], ?_, ?_, ?_, ?_⟩
  · rw [List.max?_eq_some_iff']
    constructor
    · exact hperm.mem_iff.mp (List.getElem_mem _)
    · intro b hb
      obtain ⟨k, hk, rfl⟩ := List.mem_iff_getElem.mp (hperm.mem_iff.mpr hb)
      exact sorted_getElem_le hsorted hk hn1 (by omega)
  · rw [List.min?_eq_some_iff']
    constructor
    · exact hperm.mem_iff.mp (List.getElem_mem _)
    · intro b hb
      obtain ⟨k, hk, rfl⟩ := List.mem_iff_getElem.mp (hperm.mem_iff.mpr hb)
      exact sorted_getElem_le hsorted h0 hk (by omega)
  · rw [mergeSort_eq_insertionSort]
    exact List.getElem?_eq_getElem hmid
  · have e1 := List.getElem?_eq_getElem hn1
    have e2 := List.getElem?_eq_getElem h0
    have e3 := List.getElem?_eq_getElem hmid
    have hfold : (List.insertionSort (· ≤ ·) sizes).foldl (· + ·) 0 = sizes.sum := by
      rw [← List.sum_eq_foldl]
      exact hperm.sum_eq
    simp only [sampleStats, hlen, e1, e2, e3, hfold]

/-! ### More helper lemmas for the claim proofs -/

theorem strWF_of_eq {st st' : ComputerState} (h : StrWF st)
    (h1 : st'.strings_ = st.strings_) (h2 : st'.string_to_id_ = st.string_to_id_) :
    StrWF st' := by
  refine ⟨?_, ?_, ?_⟩
  · intro s i hs
    rw [h1]
    exact h.resolve s i (h2 ▸ hs)
  · intro s hs
    rw [h1]
    exact h.complete s (h2 ▸ hs)
  · rw [h1]
    exact h.nodup

theorem InternString_lookup_self (st : ComputerState) (s : String) :
    (InternString st s).1.string_to_id_.lookup s = some (InternString st s).2 := by
  cases hl : st.string_to_id_.lookup s with
  | some i => rw [InternString_found hl]; exact hl
  | none =>
      rw [InternString_fresh hl]
      show (st.string_to_id_ ++ [(s, st.strings_.length)]).lookup s = _
      rw [lookup_append_of_none hl]
      simp [List.lookup_cons]

theorem lookup_none_of_not_mem_strings {st : ComputerState} (hw : StrWF st)
    {s : String} (h : s ∉ st.strings_) : st.string_to_id_.lookup s = none := by
  cases hl : st.string_to_id_.lookup s with
  | none => rfl
  | some i => exact absurd (List.getElem?_mem (hw.resolve s i hl)) h

/-- The statistics block only succeeds on a non-empty vector. -/
theorem sampleStats_ne_nil {l : List Nat} {v : List Int}
    (h : sampleStats l = some v) : l ≠ [] := by
  intro h0
  rw [h0] at h
  simp [sampleStats] at h

theorem insertionSort_ne_nil_imp {sizes : List Nat}
    (h : List.insertionSort (· ≤ ·) sizes ≠ []) : sizes ≠ [] := by
  intro h0
  rw [h0] at h
  exact h rfl

/-- Splitting a successful fresh-computer `Compute` into the sample loop
and the record/string-table phase. -/
theorem Compute_cases {entries : SampleSet} {pr : Profile × SampleSet}
    (h : Compute initComputer entries = some pr) :
    ∃ (st2 : ComputerState) (smps : List ProfSample),
      buildSamples stAfterTypes entries = some (st2, smps, pr.2) ∧
      pr.1 = ⟨[⟨1, 2⟩, ⟨3, 4⟩, ⟨5, 4⟩, ⟨6, 4⟩, ⟨7, 4⟩], smps,
              (buildLocationRecords st2 st2.locations_).2.1,
              (buildLocationRecords st2 st2.locations_).2.2,
              (buildLocationRecords st2 st2.locations_).1.strings_⟩ := by
  rw [Compute_dissect] at h
  cases hbs : buildSamples stAfterTypes entries with
  | none => rw [hbs] at h; exact Option.noConfusion h
  | some r =>
      obtain ⟨st2, smps, entries2⟩ := r
      rw [hbs] at h
      simp only [Option.some_inj] at h
      obtain ⟨h1, h2⟩ := Prod.mk.inj h
      exact ⟨st2, smps, by rw [← h2], h1.symm⟩

theorem computeProfile_cases {entries : SampleSet} {p : Profile}
    (h : computeProfile entries = some p) :
    ∃ (st2 : ComputerState) (smps : List ProfSample) (entries2 : SampleSet),
      buildSamples stAfterTypes entries = some (st2, smps, entries2) ∧
      p = ⟨[⟨1, 2⟩, ⟨3, 4⟩, ⟨5, 4⟩, ⟨6, 4⟩, ⟨7, 4⟩], smps,
           (buildLocationRecords st2 st2.locations_).2.1,
           (buildLocationRecords st2 st2.locations_).2.2,
           (buildLocationRecords st2 st2.locations_).1.strings_⟩ := by
  unfold computeProfile at h
  cases hc : Compute initComputer entries with
  | none => rw [hc] at h; exact absurd h (by simp)
  | some pr =>
      rw [hc] at h
      have hpr : pr.1 = p := by simpa using h
      obtain ⟨st2, smps, hbs, hp⟩ := Compute_cases hc
      exact ⟨st2, smps, pr.2, hbs, hpr ▸ hp⟩

/-! ## The claims -/

/-- C4: On every Compute invocation the empty string is interned first and
receives string ID 0 (for the fresh computer built in `Main` the first
intern of `""` returns 0); and if the first intern of `""` were to return
any other ID, `Compute` fails fatally at the `PERFETTO_CHECK`, producing
nothing. -/
theorem Compute_empty_string_id_zero (st : ComputerState) (entries : SampleSet) :
    (InternString initComputer "").2 = 0 ∧
    ((InternString st "").2 ≠ 0 → Compute st entries = none) := by
  refine ⟨rfl, fun h => ?_⟩
  simp only [Compute]
  rw [if_neg h]

theorem Compute_empty_string_id_zero_witness :
    ((InternString initComputer "").2 = 0 ∧
      ((InternString ⟨["x"], [("x", 0)], []⟩ "").2 ≠ 0 →
        Compute ⟨["x"], [("x", 0)], []⟩ [] = none)) ∧
    (InternString ⟨["x"], [("x", 0)], []⟩ "").2 ≠ 0 ∧
    Compute ⟨["x"], [("x", 0)], []⟩ [] = none := by
  refine ⟨Compute_empty_string_id_zero ⟨["x"], [("x", 0)], []⟩ [], by decide, ?_⟩
  exact (Compute_empty_string_id_zero ⟨["x"], [("x", 0)], []⟩ []).2 (by decide)

/-- C5: location IDs are assigned sequentially starting at 1 in first-seen
order (the interning state always maps its k-th distinct field name to ID
k, and a fresh name gets `size + 1`), `InternLocation` never returns 0,
and re-interning a previously seen field name returns its existing ID
without changing the state. -/
theorem InternLocation_sequential (st : ComputerState) (s : String)
    (hw : LocWF st.locations_) :
    LocWF (InternLocation st s).1.locations_ ∧
    (InternLocation st s).2 ≠ 0 ∧
    (∀ id : Nat, st.locations_.lookup s = some id → InternLocation st s = (st, id)) ∧
    (st.locations_.lookup s = none →
      (InternLocation st s).2 = st.locations_.length + 1 ∧
      (InternLocation st s).1.locations_ =
        st.locations_ ++ [(s, st.locations_.length + 1)]) := by
  refine ⟨InternLocation_locWF hw s, InternLocation_ne_zero hw s, ?_, ?_⟩
  · intro id hid
    exact InternLocation_found hid
  · intro hnone
    rw [InternLocation_fresh hnone]
    exact ⟨rfl, rfl⟩

theorem InternLocation_sequential_witness :
    LocWF initComputer.locations_ ∧
    (LocWF (InternLocation initComputer "a").1.locations_ ∧
      (InternLocation initComputer "a").2 ≠ 0 ∧
      (∀ id : Nat, initComputer.locations_.lookup "a" = some id →
        InternLocation initComputer "a" = (initComputer, id)) ∧
      (initComputer.locations_.lookup "a" = none →
        (InternLocation initComputer "a").2 = initComputer.locations_.length + 1 ∧
        (InternLocation initComputer "a").1.locations_ =
          initComputer.locations_ ++ [("a", initComputer.locations_.length + 1)])) :=
  ⟨locWF_init, InternLocation_sequential initComputer "a" locWF_init⟩

/-- C8: string interning is idempotent and injective: re-interning the
same text returns the same ID with the state unchanged, two distinct
texts never receive the same ID, and a newly seen text receives the next
sequential ID (the current size of the string table). -/
theorem InternString_idempotent_injective (st : ComputerState) (a b : String)
    (hw : StrWF st) (hab : a ≠ b) :
    InternString (InternString st a).1 a = ((InternString st a).1, (InternString st a).2) ∧
    (InternString (InternString st a).1 b).2 ≠ (InternString st a).2 ∧
    (b ∉ (InternString st a).1.strings_ →
      (InternString (InternString st a).1 b).2 = (InternString st a).1.strings_.length) := by
  have hw1 : StrWF (InternString st a).1 := InternString_wf hw a
  refine ⟨InternString_found (InternString_lookup_self st a), ?_, ?_⟩
  · intro heq
    have ha : (InternString st a).1.strings_[(InternString st a).2]? = some a :=
      InternString_resolve hw a
    have hb : (InternString (InternString st a).1 b).1.strings_[
        (InternString (InternString st a).1 b).2]? = some b :=
      InternString_resolve hw1 b
    have ha2 : (InternString (InternString st a).1 b).1.strings_[
        (InternString st a).2]? = some a :=
      getElem?_of_extend (InternString_strings_extend (InternString st a).1 b) ha
    rw [heq] at hb
    rw [ha2] at hb
    exact hab (by simpa using hb)
  · intro hb
    have hnone := lookup_none_of_not_mem_strings hw1 hb
    rw [InternString_fresh hnone]

theorem InternString_idempotent_injective_witness :
    ("x" : String) ≠ "y" ∧
    (InternString (InternString initComputer "x").1 "x" =
      ((InternString initComputer "x").1, (InternString initComputer "x").2) ∧
    (InternString (InternString initComputer "x").1 "y").2 ≠
      (InternString initComputer "x").2 ∧
    ("y" ∉ (InternString initComputer "x").1.strings_ →
      (InternString (InternString initComputer "x").1 "y").2 =
        (InternString initComputer "x").1.strings_.length)) :=
  ⟨by decide, InternString_idempotent_injective initComputer "x" "y" strWF_init (by decide)⟩

/-- The sample loop fails (and with it the whole `Compute` call) as soon
as any entry's sizes list is empty, from any starting state. -/
theorem buildSamples_none_of_empty {entries : SampleSet} {i : Nat} {path : FieldPath}
    (he : entries[i]? = some (path, [])) (st : ComputerState) :
    buildSamples st entries = none := by
  induction entries generalizing st i with
  | nil => simp at he
  | cons e rest ih =>
      obtain ⟨q, s⟩ := e
      cases i with
      | zero =>
          obtain ⟨rfl, rfl⟩ : q = path ∧ s = [] := by simpa using he
          simp [buildSamples, sampleStats]
      | succ j =>
          have he' : rest[j]? = some (path, []) := by simpa using he
          simp only [buildSamples]
          cases hstat : sampleStats (List.insertionSort (· ≤ ·) s) with
          | none => rfl
          | some v =>
              rw [ih he' (internLocationList st q.reverse).1]

/-- C9: if the SampleSet contains any field path with an empty sizes list,
`Compute` fails fatally (the statistics block reads `samples[count - 1]`
out of bounds) and emits no profile at all, in particular no Sample for
the zero-occurrence path. -/
theorem Compute_empty_sizes_fatal (entries : SampleSet) (i : Nat) (path : FieldPath)
    (he : entries[i]? = some (path, [])) :
    computeProfile entries = none := by
  unfold computeProfile
  rw [Compute_dissect, buildSamples_none_of_empty he stAfterTypes]
  rfl

theorem Compute_empty_sizes_fatal_witness :
    ([(["a"], [])] : SampleSet)[0]? = some (["a"], []) ∧
    computeProfile [(["a"], [])] = none :=
  ⟨rfl, Compute_empty_sizes_fatal [(["a"], [])] 0 ["a"] rfl⟩

/-- C1: for every field path whose sizes list is non-empty (n ≥ 1), the
emitted Sample carries exactly the value 5-tuple
`[n, max sizes, min sizes, sorted[n / 2], sum sizes]`, where the median
index uses floor division on the ascending sort. -/
theorem Compute_sample_value_tuple (entries : SampleSet) (p : Profile)
    (h : computeProfile entries = some p) (i : Nat) (path : FieldPath)
    (sizes : List Nat) (he : entries[i]? = some (path, sizes)) (hn : sizes ≠ []) :
    ∃ (smp : ProfSample) (mx mn md : Nat), p.sample[i]? = some smp ∧
      sizes.max? = some mx ∧ sizes.min? = some mn ∧
      (sizes.mergeSort (fun a b => a ≤ b))[sizes.length / 2]? = some md ∧
      smp.value = [(sizes.length : Int), (mx : Int), (mn : Int), (md : Int),
                   (sizes.sum : Int)] := by
  obtain ⟨st2, smps, entries2, hbs, rfl⟩ := computeProfile_cases h
  obtain ⟨-, -, -, -, -, -, hmain⟩ := buildSamples_spec hbs
  obtain ⟨smp, hsmp, -, hstat, -, -⟩ := hmain i path sizes he
  obtain ⟨mx, mn, md, hmx, hmn, hmd, hstat2⟩ := sampleStats_insertionSort hn
  refine ⟨smp, mx, mn, md, hsmp, hmx, hmn, hmd, ?_⟩
  rw [hstat] at hstat2
  exact Option.some_inj.mp hstat2

/-- C2: `Compute` emits exactly the 5 fixed sample-type entries, in order
(protos, count), (max_size, bytes), (min_size, bytes), (median, bytes),
(total_size, bytes), and every Sample's 5 values appear in the matching
positional order count, max, min, median, total. -/
theorem Compute_sample_types_fixed_order (entries : SampleSet) (p : Profile)
    (h : computeProfile entries = some p) :
    p.sample_type.map (fun e => (p.string_table[e.type]?, p.string_table[e.unit]?)) =
      [(some "protos", some "count"), (some "max_size", some "bytes"),
       (some "min_size", some "bytes"), (some "median", some "bytes"),
       (some "total_size", some "bytes")] ∧
    ∀ (i : Nat) (path : FieldPath) (sizes : List Nat),
      entries[i]? = some (path, sizes) →
      ∃ smp : ProfSample, p.sample[i]? = some smp ∧ smp.value.length = 5 ∧
        smp.value[0]? = some (sizes.length : Int) ∧
        smp.value[1]? = sizes.max?.map (fun v => (v : Int)) ∧
        smp.value[2]? = sizes.min?.map (fun v => (v : Int)) ∧
        smp.value[3]? =
          ((sizes.mergeSort (fun a b => a ≤ b))[sizes.length / 2]?).map
            (fun v => (v : Int)) ∧
        smp.value[4]? = some (sizes.sum : Int) := by
  obtain ⟨st2, smps, entries2, hbs, rfl⟩ := computeProfile_cases h
  obtain ⟨hstr, hsid, -, -, -, -, hmain⟩ := buildSamples_spec hbs
  constructor
  · have hpre : stAfterTypes.strings_ <+:
        (buildLocationRecords st2 st2.locations_).1.strings_ := by
      have hp := buildLocationRecords_strings_extend st2.locations_ st2
      rw [hstr] at hp
      exact hp
    have g : ∀ (k : Nat) (s : String), stAfterTypes.strings_[k]? = some s →
        (buildLocationRecords st2 st2.locations_).1.strings_[k]? = some s :=
      fun k s hk => getElem?_of_extend hpre hk
    simp only [List.map_cons, List.map_nil]
    rw [g 1 "protos" (by decide), g 2 "count" (by decide), g 3 "max_size" (by decide),
        g 4 "bytes" (by decide), g 5 "min_size" (by decide), g 6 "median" (by decide),
        g 7 "total_size" (by decide)]
  · intro i path sizes he
    obtain ⟨smp, hsmp, -, hstat, -, -⟩ := hmain i path sizes he
    have hn : sizes ≠ [] := insertionSort_ne_nil_imp (sampleStats_ne_nil hstat)
    obtain ⟨mx, mn, md, hmx, hmn, hmd, hstat2⟩ := sampleStats_insertionSort hn
    rw [hstat] at hstat2
    have hval : smp.value = [(sizes.length : Int), (mx : Int), (mn : Int),
        (md : Int), (sizes.sum : Int)] := Option.some_inj.mp hstat2
    refine ⟨smp, hsmp, ?_, ?_, ?_, ?_, ?_, ?_⟩ <;>
      simp [hval, hmx, hmn, hmd]

/-- C3: the output string table (serialized last, after all Sample,
Location and Function records) holds each interned string exactly once
(it is the first-interned sequence, so it has no duplicates), and every
Function record's name field resolves inside it — in particular no
function name interned during Location emission is missing. -/
theorem Compute_string_table_complete (entries : SampleSet) (p : Profile)
    (h : computeProfile entries = some p) :
    p.string_table.Nodup ∧
    ∀ fn ∈ p.function, ∃ s : String, p.string_table[fn.name]? = some s := by
  obtain ⟨st2, smps, entries2, hbs, rfl⟩ := computeProfile_cases h
  obtain ⟨hstr, hsid, -, -, -, -, -⟩ := buildSamples_spec hbs
  have hw2 : StrWF st2 := strWF_of_eq strWF_afterTypes hstr hsid
  have hwf : StrWF (buildLocationRecords st2 st2.locations_).1 :=
    buildLocationRecords_wf _ hw2
  refine ⟨hwf.nodup, ?_⟩
  intro fn hfn
  obtain ⟨k, hk, hfnk⟩ := List.mem_iff_getElem.mp hfn
  have hlen := (buildLocationRecords_ids st2.locations_ st2).2.2.2
  have hk2 : k < st2.locations_.length := by rw [← hlen]; exact hk
  obtain ⟨⟨name, id⟩, hlk⟩ : ∃ pr : String × Nat, st2.locations_[k]? = some pr :=
    ⟨_, List.getElem?_eq_getElem hk2⟩
  obtain ⟨h1, nameId, h2, h3⟩ := buildLocationRecords_resolve st2.locations_ hw2 hlk
  have hfn2 : (buildLocationRecords st2 st2.locations_).2.2[k]? = some fn := by
    rw [List.getElem?_eq_getElem hk, hfnk]
  rw [h2] at hfn2
  obtain rfl : fn = ⟨id, nameId⟩ := (Option.some_inj.mp hfn2).symm
  exact ⟨name, h3⟩

/-- C6: every Sample's location-ID stack is the reverse of its field
path — leaf-first, with the deepest field's location ID at position 0 —
and each stack entry's ID belongs to a Function record whose name
resolves to that field name. -/
theorem Compute_location_stack_leaf_first (entries : SampleSet) (p : Profile)
    (h : computeProfile entries = some p) (i : Nat) (path : FieldPath)
    (sizes : List Nat) (he : entries[i]? = some (path, sizes)) :
    ∃ smp : ProfSample, p.sample[i]? = some smp ∧
      smp.location_id.length = path.length ∧
      ∀ (j : Nat) (name : String), path.reverse[j]? = some name →
        ∃ (id k : Nat) (fn : ProfFunction),
          smp.location_id[j]? = some id ∧ p.function[k]? = some fn ∧
          fn.id = id ∧ p.string_table[fn.name]? = some name := by
  obtain ⟨st2, smps, entries2, hbs, rfl⟩ := computeProfile_cases h
  obtain ⟨hstr, hsid, -, -, -, -, hmain⟩ := buildSamples_spec hbs
  have hw2 : StrWF st2 := strWF_of_eq strWF_afterTypes hstr hsid
  obtain ⟨smp, hsmp, -, -, hlenl, hloc⟩ := hmain i path sizes he
  refine ⟨smp, hsmp, hlenl, ?_⟩
  intro j name hj
  obtain ⟨id, hid, hlook⟩ := hloc j name hj
  obtain ⟨k, hk, hkeq⟩ := List.mem_iff_getElem.mp (mem_of_lookup_eq_some hlook)
  have hlk : st2.locations_[k]? = some (name, id) := by
    rw [List.getElem?_eq_getElem hk, hkeq]
  obtain ⟨h1, nameId, h2, h3⟩ := buildLocationRecords_resolve st2.locations_ hw2 hlk
  exact ⟨id, k, ⟨id, nameId⟩, hid, h2, rfl, h3⟩

/-- C7: location interning is keyed by bare field name: whenever the same
field name occurs in two paths (at any depths), the two Samples' stacks
carry the same location ID at those positions, and location/function IDs
are unique — all occurrences collapse onto the one Location/Function pair
with that ID. -/
theorem Compute_location_id_shared (entries : SampleSet) (p : Profile)
    (h : computeProfile entries = some p) (i j a b : Nat)
    (pa pb : FieldPath) (sa sb : List Nat) (name : String)
    (hia : entries[i]? = some (pa, sa)) (hjb : entries[j]? = some (pb, sb))
    (ha : pa.reverse[a]? = some name) (hb : pb.reverse[b]? = some name)
    (smpA smpB : ProfSample)
    (hsa : p.sample[i]? = some smpA) (hsb : p.sample[j]? = some smpB) :
    (∃ id : Nat, smpA.location_id[a]? = some id ∧
      smpB.location_id[b]? = some id) ∧
    (p.location.map ProfLocation.id).Nodup ∧
    (p.function.map ProfFunction.id).Nodup := by
  obtain ⟨st2, smps, entries2, hbs, rfl⟩ := computeProfile_cases h
  obtain ⟨-, -, -, hlocwf, -, -, hmain⟩ := buildSamples_spec hbs
  obtain ⟨smp1, hs1, -, -, -, hloc1⟩ := hmain i pa sa hia
  obtain ⟨smp2, hs2, -, -, -, hloc2⟩ := hmain j pb sb hjb
  obtain rfl : smpA = smp1 := Option.some_inj.mp (hsa.symm.trans hs1)
  obtain rfl : smpB = smp2 := Option.some_inj.mp (hsb.symm.trans hs2)
  obtain ⟨idA, hidA, hlookA⟩ := hloc1 a name ha
  obtain ⟨idB, hidB, hlookB⟩ := hloc2 b name hb
  obtain rfl : idA = idB := Option.some_inj.mp (hlookA.symm.trans hlookB)
  have hwf2 : LocWF st2.locations_ := hlocwf locWF_afterTypes
  have hids := buildLocationRecords_ids st2.locations_ st2
  refine ⟨⟨idA, hidA, hidB⟩, ?_, ?_⟩
  · rw [hids.1, hwf2]
    exact List.nodup_range' _ _
  · rw [hids.2.1, hwf2]
    exact List.nodup_range' _ _

/-- C10: `Compute` never mutates the field-path keys of the SampleSet it
consumes: after the run, the mapping has the same keys in the same order,
and each per-path sizes list is merely a permutation (the in-place
ascending sort) of the original. -/
theorem Compute_preserves_keys (entries entries' : SampleSet) (p : Profile)
    (h : Compute initComputer entries = some (p, entries')) :
    entries'.map Prod.fst = entries.map Prod.fst ∧
    ∀ (i : Nat) (path : FieldPath) (sizes : List Nat),
      entries[i]? = some (path, sizes) →
      ∃ sizes' : List Nat, entries'[i]? = some (path, sizes') ∧
        sizes'.Perm sizes := by
  obtain ⟨st2, smps, hbs, hp⟩ := Compute_cases h
  obtain ⟨-, -, -, -, -, hlen, hmain⟩ := buildSamples_spec hbs
  constructor
  · apply List.ext_getElem?
    intro n
    rw [List.getElem?_map, List.getElem?_map]
    cases hn : entries[n]? with
    | none =>
        have hn2 : entries'[n]? = none := by
          rw [List.getElem?_eq_none_iff] at hn ⊢
          rw [hlen]
          exact hn
        rw [hn2]
    | some e =>
        obtain ⟨path, sizes⟩ := e
        obtain ⟨smp, -, he', -, -, -⟩ := hmain n path sizes hn
        rw [he']
        rfl
  · intro i path sizes he
    obtain ⟨smp, -, he', -, -, -⟩ := hmain i path sizes he
    exact ⟨_, he', List.perm_insertionSort _ sizes⟩

theorem Compute_sample_value_tuple_witness :
    computeProfile exEntriesA = some exProfileA ∧
    exEntriesA[0]? = some (["a"], [3, 1, 2]) ∧
    ([3, 1, 2] : List Nat) ≠ [] ∧
    (∃ (smp : ProfSample) (mx mn md : Nat), exProfileA.sample[0]? = some smp ∧
      ([3, 1, 2] : List Nat).max? = some mx ∧
      ([3, 1, 2] : List Nat).min? = some mn ∧
      (([3, 1, 2] : List Nat).mergeSort
        (fun a b => a ≤ b))[([3, 1, 2] : List Nat).length / 2]? = some md ∧
      smp.value = [(([3, 1, 2] : List Nat).length : Int), (mx : Int), (mn : Int),
                   (md : Int), (([3, 1, 2] : List Nat).sum : Int)]) := by
  have h : computeProfile exEntriesA = some exProfileA := by decide
  exact ⟨h, rfl, by decide,
    Compute_sample_value_tuple exEntriesA exProfileA h 0 ["a"] [3, 1, 2] rfl (by decide)⟩

theorem Compute_sample_types_fixed_order_witness :
    computeProfile exEntriesA = some exProfileA ∧
    exProfileA.sample_type.map
      (fun e => (exProfileA.string_table[e.type]?, exProfileA.string_table[e.unit]?)) =
      [(some "protos", some "count"), (some "max_size", some "bytes"),
       (some "min_size", some "bytes"), (some "median", some "bytes"),
       (some "total_size", some "bytes")] ∧
    (∃ smp : ProfSample, exProfileA.sample[0]? = some smp ∧ smp.value.length = 5 ∧
      smp.value[0]? = some ((([3, 1, 2] : List Nat)).length : Int) ∧
      smp.value[1]? = ([3, 1, 2] : List Nat).max?.map (fun v => (v : Int)) ∧
      smp.value[2]? = ([3, 1, 2] : List Nat).min?.map (fun v => (v : Int)) ∧
      smp.value[3]? =
        ((([3, 1, 2] : List Nat).mergeSort
          (fun a b => a ≤ b))[([3, 1, 2] : List Nat).length / 2]?).map
            (fun v => (v : Int)) ∧
      smp.value[4]? = some (([3, 1, 2] : List Nat).sum : Int)) := by
  have h : computeProfile exEntriesA = some exProfileA := by decide
  obtain ⟨h1, h2⟩ := Compute_sample_types_fixed_order exEntriesA exProfileA h
  exact ⟨h, h1, h2 0 ["a"] [3, 1, 2] rfl⟩

theorem Compute_string_table_complete_witness :
    computeProfile exEntriesA = some exProfileA ∧
    exProfileA.string_table.Nodup ∧
    (∃ s : String, exProfileA.string_table[(⟨1, 8⟩ : ProfFunction).name]? = some s) := by
  have h : computeProfile exEntriesA = some exProfileA := by decide
  obtain ⟨h1, h2⟩ := Compute_string_table_complete exEntriesA exProfileA h
  exact ⟨h, h1, h2 ⟨1, 8⟩ (by decide)⟩

theorem Compute_location_stack_leaf_first_witness :
    computeProfile exEntriesAB = some exProfileAB ∧
    (∃ smp : ProfSample, exProfileAB.sample[0]? = some smp ∧
      smp.location_id.length = (["a", "b"] : FieldPath).length ∧
      (∃ (id k : Nat) (fn : ProfFunction), smp.location_id[0]? = some id ∧
        exProfileAB.function[k]? = some fn ∧ fn.id = id ∧
        exProfileAB.string_table[fn.name]? = some "b") ∧
      (∃ (id k : Nat) (fn : ProfFunction), smp.location_id[1]? = some id ∧
        exProfileAB.function[k]? = some fn ∧ fn.id = id ∧
        exProfileAB.string_table[fn.name]? = some "a")) := by
  have h : computeProfile exEntriesAB = some exProfileAB := by decide
  obtain ⟨smp, h1, h2, h3⟩ :=
    Compute_location_stack_leaf_first exEntriesAB exProfileAB h 0 ["a", "b"] [5] rfl
  exact ⟨h, smp, h1, h2, h3 0 "b" rfl, h3 1 "a" rfl⟩

theorem Compute_location_id_shared_witness :
    computeProfile exEntriesXY = some exProfileXY ∧
    ((∃ id : Nat, (⟨[1], [2, 2, 1, 2, 3]⟩ : ProfSample).location_id[0]? = some id ∧
        (⟨[1, 2], [1, 7, 7, 7, 7]⟩ : ProfSample).location_id[0]? = some id) ∧
      (exProfileXY.location.map ProfLocation.id).Nodup ∧
      (exProfileXY.function.map ProfFunction.id).Nodup) := by
  have h : computeProfile exEntriesXY = some exProfileXY := by decide
  exact ⟨h, Compute_location_id_shared exEntriesXY exProfileXY h 0 1 0 0
    ["x"] ["y", "x"] [1, 2] [7] "x" rfl rfl rfl rfl
    ⟨[1], [2, 2, 1, 2, 3]⟩ ⟨[1, 2], [1, 7, 7, 7, 7]⟩ rfl rfl⟩

theorem Compute_preserves_keys_witness :
    Compute initComputer exEntriesA = some (exProfileA, [(["a"], [1, 2, 3])]) ∧
    ([(["a"], [1, 2, 3])] : SampleSet).map Prod.fst = exEntriesA.map Prod.fst ∧
    (∃ sizes' : List Nat, ([(["a"], [1, 2, 3])] : SampleSet)[0]? = some (["a"], sizes') ∧
      sizes'.Perm [3, 1, 2]) := by
  have h : Compute initComputer exEntriesA =
      some (exProfileA, [(["a"], [1, 2, 3])]) := by decide
  obtain ⟨h1, h2⟩ := Compute_preserves_keys exEntriesA [(["a"], [1, 2, 3])] exProfileA h
  exact ⟨h, h1, h2 0 ["a"] [3, 1, 2] rfl⟩

end Protoprofile
